import Mathlib

/-!
Shallow embedding of the core game logic of ascii-breakout (src/main.c):
the board data model, ball motion and collision resolution (checkBall),
block destruction (destroyBlock), paddle motion (movePaddle), board
generation (generateBoard) and the bonus-life schedule of play().

C machine integers are modelled as Int (for coordinates, directions,
counters) and Nat (for the unsigned frame counter, velocities, the random
stream and the unsigned 32-bit score, which wraps modulo 2^32).
The C library rand() is modelled as an explicit stream of natural
numbers, consumed in the order the source calls rand().
-/

set_option maxRecDepth 8000

/-- Dimensions of the play field (src/main.c: #define WIDTH 60). -/
def WIDTH : Int := 60

/-- Dimensions of the play field (src/main.c: #define HEIGHT 36). -/
def HEIGHT : Int := 36

/-- Modulus of the C type unsigned int (32 bits on every platform the
game targets), used for the score. -/
def U32 : Nat := 4294967296

/-- The Tile enum of src/main.c: what occupies one board cell.  The
concrete C enum values (character and color codes) are irrelevant to the
game logic; only their distinctness matters. -/
inductive Tile where
  | EMPTY
  | BALL
  | PADDLE
  | RED_BLOCK
  | BLUE_BLOCK
  | GREEN_BLOCK
deriving DecidableEq, Repr

open Tile

/-- Whether a tile is a breakable block (RED_BLOCK, BLUE_BLOCK or
GREEN_BLOCK). -/
def isBlock : Tile → Bool
  | RED_BLOCK => true
  | BLUE_BLOCK => true
  | GREEN_BLOCK => true
  | _ => false

/-- The play field: Tile board[WIDTH][HEIGHT], modelled as a total
function from (x, y) coordinates to tiles. -/
abbrev Board := Int → Int → Tile

/-- A single assignment board[x][y] = t. -/
def setTile (b : Board) (x y : Int) (t : Tile) : Board :=
  fun a c => if a = x ∧ c = y then t else b a c

/-- The Ball struct of src/main.c: position, per-axis frame periods
(velocities, always positive in the program: every assignment is
rand() % k + c with c ≥ 5) and per-axis direction signs. -/
structure Ball where
  x : Int
  y : Int
  xVelocity : Nat
  yVelocity : Nat
  xDirection : Int
  yDirection : Int
deriving DecidableEq, Repr

/-- The Paddle struct of src/main.c. -/
structure Paddle where
  x : Int
  y : Int
  len : Int
  direction : Int
  lastDirection : Int
  velocity : Nat
deriving DecidableEq, Repr

/-! ## movePaddle (src/main.c lines 373-404) -/

/-- The body of the left-motion loop of movePaddle, iterated
(-direction) times: paint board[x-1][y] PADDLE, clear
board[x+len-1][y] to EMPTY, decrement x. -/
def movePaddleLeftLoop : Nat → Paddle → Board → Paddle × Board
  | 0, p, b => (p, b)
  | n + 1, p, b =>
      let b1 := setTile b (p.x - 1) p.y PADDLE
      let b2 := setTile b1 (p.x + p.len - 1) p.y EMPTY
      movePaddleLeftLoop n { p with x := p.x - 1 } b2

/-- The body of the right-motion loop of movePaddle, iterated
direction times: paint board[x+len][y] PADDLE, clear board[x][y] to
EMPTY, increment x. -/
def movePaddleRightLoop : Nat → Paddle → Board → Paddle × Board
  | 0, p, b => (p, b)
  | n + 1, p, b =>
      let b1 := setTile b (p.x + p.len) p.y PADDLE
      let b2 := setTile b1 p.x p.y EMPTY
      movePaddleRightLoop n { p with x := p.x + 1 } b2

/-- movePaddle of src/main.c: move the paddle according to its
direction, rejecting a move that would leave the play field. -/
def movePaddle (p : Paddle) (b : Board) : Paddle × Board :=
  if p.direction < 0 ∧ p.x + p.direction ≥ 0 then
    movePaddleLeftLoop (-p.direction).toNat p b
  else if p.direction > 0 ∧ p.x + p.len + p.direction ≤ WIDTH then
    movePaddleRightLoop p.direction.toNat p b
  else
    (p, b)

/-- One game-loop interaction with the paddle: the input handler sets
paddle.direction, then movePaddle runs.  Iterated over a list of
direction values. -/
def runPaddleMoves : Paddle → Board → List Int → Paddle × Board
  | p, b, [] => (p, b)
  | p, b, d :: ds =>
      let r := movePaddle { p with direction := d } b
      runPaddleMoves r.1 r.2 ds

/-! ## destroyBlock, moveBall and checkBall (src/main.c lines 138-229, 360-370) -/

/-- destroyBlock of src/main.c: clear the struck cell and its partner
(x+1 if x is odd, x-1 if x is even, C remainder semantics), decrement
the remaining-block counter, add 10 to the unsigned score. -/
def destroyBlock (x y : Int) (b : Board) (blocksLeft : Int) (score : Nat) :
    Board × Int × Nat :=
  let offset : Int := if x.tmod 2 = 1 then 1 else -1
  let b1 := setTile b x y EMPTY
  let b2 := setTile b1 (x + offset) y EMPTY
  (b2, blocksLeft - 1, (score + 10) % U32)

/-- moveBall of src/main.c: clear the cell at the ball's position, move
the ball entity, set the destination cell to BALL. -/
def moveBall (ball : Ball) (x y : Int) (b : Board) : Ball × Board :=
  let b1 := setTile b ball.x ball.y EMPTY
  let b2 := setTile b1 x y BALL
  ({ ball with x := x, y := y }, b2)

/-- Candidate next x of the ball: advance by xDirection only on frames
where frame % xVelocity == 0. -/
def nextXOf (ball : Ball) (frame : Nat) : Int :=
  if frame % ball.xVelocity = 0 then ball.x + ball.xDirection else ball.x

/-- Candidate next y of the ball: advance by yDirection only on frames
where frame % yVelocity == 0. -/
def nextYOf (ball : Ball) (frame : Nat) : Int :=
  if frame % ball.yVelocity = 0 then ball.y + ball.yDirection else ball.y

/-- The outcome of one checkBall call: the C return value (0 when the
ball reached the bottom, 1 otherwise) and the new ball, board,
remaining-block counter and score. -/
structure CBOut where
  res : Nat
  ball : Ball
  board : Board
  blocksLeft : Int
  score : Nat

/-- checkBall of src/main.c: per-frame ball motion and collision
resolution.  r is the rand() stream; the draws r 0, r 1, ... are
consumed in source order within the branch taken. -/
def checkBall (ball : Ball) (b : Board) (blocksLeft : Int) (score : Nat)
    (frame : Nat) (r : Nat → Nat) : CBOut :=
  let nextX := nextXOf ball frame
  let nextY := nextYOf ball frame
  if nextX = ball.x ∧ nextY = ball.y then
    -- the ball did not change position
    ⟨1, ball, b, blocksLeft, score⟩
  else if nextY ≥ HEIGHT then
    -- the ball has hit the bottom of the game field
    ⟨0, ball, b, blocksLeft, score⟩
  else if nextX ≥ 0 ∧ nextX < WIDTH ∧ nextY ≥ 0 ∧ b nextX nextY = EMPTY then
    -- the incoming tile is valid and empty: move there
    let m := moveBall ball nextX nextY b
    ⟨1, m.1, m.2, blocksLeft, score⟩
  else if nextY = 0 ∧ (nextX = 0 ∨ nextX = WIDTH - 1) then
    -- stuck in a corner: invert both directions
    ⟨1, { ball with xDirection := -ball.xDirection,
                    yDirection := -ball.yDirection }, b, blocksLeft, score⟩
  else if nextX ≤ 0 ∨ nextX ≥ WIDTH then
    -- bounce off the side walls
    ⟨1, { ball with xDirection := -ball.xDirection }, b, blocksLeft, score⟩
  else if nextY ≤ 0 then
    -- bounce off the ceiling
    ⟨1, { ball with yDirection := -ball.yDirection }, b, blocksLeft, score⟩
  else if b nextX nextY = PADDLE then
    -- bounce off paddle: invert y, invert x on an even draw, then
    -- redraw both velocities as rand() % 8 + 5
    ⟨1, { ball with
            yDirection := -ball.yDirection,
            xDirection := if r 0 % 2 = 0 then -ball.xDirection
                          else ball.xDirection,
            xVelocity := r 1 % 8 + 5,
            yVelocity := r 2 % 8 + 5 }, b, blocksLeft, score⟩
  else
    -- bounce off (and destroy) a block
    let d := destroyBlock nextX nextY b blocksLeft score
    ⟨1, { ball with
            xDirection := if r 0 % 2 = 0 then -ball.xDirection
                          else ball.xDirection,
            yDirection := if r 1 % 2 = 0 then -ball.yDirection
                          else ball.yDirection }, d.1, d.2.1, d.2.2⟩

/-! ## generateBoard (src/main.c lines 266-304) -/

/-- The switch (rand() % 3) of generateBoard: 0 is red, 1 is blue,
2 (and the default) is green. -/
def blockColor (n : Nat) : Tile :=
  match n with
  | 0 => RED_BLOCK
  | 1 => BLUE_BLOCK
  | _ => GREEN_BLOCK

/-- The inner loop of generateBoard for one column pair i: for j from
some start value while j < maxBlockY (fuel iterations), place a pair of
same-color blocks at (i, j) and (i+1, j), counting one block unit and
consuming one rand() draw per iteration.  Returns the board, the block
count and the next rand() index. -/
def genColumn (r : Nat → Nat) (i : Int) :
    Nat → Int → Board → Int → Nat → Board × Int × Nat
  | 0, _, b, blocks, ridx => (b, blocks, ridx)
  | fuel + 1, j, b, blocks, ridx =>
      let c := blockColor (r ridx % 3)
      let b2 := setTile (setTile b i j c) (i + 1) j c
      genColumn r i fuel (j + 1) b2 (blocks + 1) (ridx + 1)

/-- The outer loop of generateBoard: for i from some start value
stepping by 2 (fuel iterations), fill column pair (i, i+1) with rows
3 ≤ j < maxBlockY of blocks. -/
def genRows (r : Nat → Nat) (maxBlockY : Int) :
    Nat → Int → Board → Int → Nat → Board × Int × Nat
  | 0, _, b, blocks, ridx => (b, blocks, ridx)
  | fuel + 1, i, b, blocks, ridx =>
      let s := genColumn r i (maxBlockY - 3).toNat 3 b blocks ridx
      genRows r maxBlockY fuel (i + 2) s.1 s.2.1 s.2.2

/-- The paddle-creation loop of generateBoard: board[x + i][y] = PADDLE
for i from 0 while i < len. -/
def placePaddle (b : Board) (px py : Int) : Nat → Board
  | 0 => b
  | n + 1 => setTile (placePaddle b px py n) (px + n) py PADDLE

/-- generateBoard of src/main.c: clear the board, paint the paddle span
and the ball cell, then fill the block field.  The outer loop
for (i = 3; i < WIDTH - 3; i += 2) runs for i = 3, 5, ..., 55: 27
iterations.  Returns the final board and the block count. -/
def generateBoard (level maxBlockY : Int) (p : Paddle) (ball : Ball)
    (r : Nat → Nat) : Board × Int :=
  let b0 : Board := fun _ _ => EMPTY
  let b1 := placePaddle b0 p.x p.y p.len.toNat
  let b2 := setTile b1 ball.x ball.y BALL
  let s := genRows r maxBlockY 27 3 b2 0 0
  (s.1, s.2.1)

/-! ## The frame loop as a step relation (src/main.c lines 504-565) -/

/-- The state mutated by one frame of the game loop: the board, the
ball, the paddle, the remaining-block counter and the score. -/
structure GState where
  board : Board
  ball : Ball
  paddle : Paddle
  blocksLeft : Int
  score : Nat

/-- One frame-loop interaction of play() that touches the state: either
the input handler sets paddle.direction (to any value) and movePaddle
runs, or checkBall runs with some frame counter and rand() stream.
Frames where neither entity moves are covered by checkBall's own
no-move branch and by direction 0. -/
inductive FrameStep : GState → GState → Prop
  | paddle (d : Int) (s : GState) :
      FrameStep s
        { s with
          paddle := (movePaddle { s.paddle with direction := d } s.board).1,
          board := (movePaddle { s.paddle with direction := d } s.board).2 }
  | ball (frame : Nat) (r : Nat → Nat) (s : GState) :
      FrameStep s
        { s with
          ball := (checkBall s.ball s.board s.blocksLeft s.score frame r).ball,
          board := (checkBall s.ball s.board s.blocksLeft s.score frame r).board,
          blocksLeft :=
            (checkBall s.ball s.board s.blocksLeft s.score frame r).blocksLeft,
          score := (checkBall s.ball s.board s.blocksLeft s.score frame r).score }

/-- All states the frame loop can reach from a start state. -/
def Reachable (s t : GState) : Prop :=
  Relation.ReflTransGen FrameStep s t

/-- The number of block tiles on the play field. -/
def nblocks (b : Board) : Nat :=
  ((Finset.Icc (0 : Int) (WIDTH - 1)) ×ˢ (Finset.Icc (0 : Int) (HEIGHT - 1))).filter
    (fun q => isBlock (b q.1 q.2) = true) |>.card

/-- The conservation invariant of the frame loop, relative to the
level's maxBlockY: blocks live only in the block field (columns 3..56,
rows 3..maxBlockY-1) and come in aligned pairs at odd x; twice the
remaining-block counter is the number of block tiles; BALL tiles occur
only at the ball's position; the cell under the ball and the paddle row
hold no block. -/
def ConsInv (maxBlockY : Int) (s : GState) : Prop :=
  (∀ x y, isBlock (s.board x y) = true →
      3 ≤ x ∧ x ≤ 56 ∧ 3 ≤ y ∧ y < maxBlockY)
  ∧ (∀ x y, x % 2 = 1 →
      isBlock (s.board x y) = isBlock (s.board (x + 1) y))
  ∧ 2 * s.blocksLeft = (nblocks s.board : Int)
  ∧ (∀ x y, s.board x y = BALL → x = s.ball.x ∧ y = s.ball.y)
  ∧ isBlock (s.board s.ball.x s.ball.y) = false
  ∧ maxBlockY ≤ s.paddle.y

/-! ## Bonus lives at level start (src/main.c lines 430-444) -/

/-- The level-banded bonus-life schedule at the top of play(): the
number added to *lives for a given level. -/
def bonusLives (level : Int) : Int :=
  if level ≤ 1 then 0
  else if level < 10 then 2
  else if level < 20 then 1
  else if level % 2 = 0 ∧ level < 40 then 1
  else if level % 4 = 0 ∧ level < 60 then 1
  else 0

/-! ## The start-of-life reset (src/main.c lines 475-493) -/

/-- The paddle-row clearing loop of the life loop:
board[i][paddle.y] = EMPTY for i from 0 while i < WIDTH. -/
def clearPaddleRow (b : Board) (py : Int) : Nat → Board
  | 0 => b
  | n + 1 => setTile (clearPaddleRow b py n) (n : Int) py EMPTY

/-- The start of one life in play(): reset the ball entity to the
centered start with fresh velocities in [6,16) and a random x
direction, recenter the paddle, clear the paddle row and repaint the
paddle span.  The draws r0, r1, r2 are the three rand() calls in
source order.  Note the board cell of the ball's previous position is
not cleared here and no BALL tile is written at the new position. -/
def lifeReset (s : GState) (maxBlockY : Int) (r0 r1 r2 : Nat) : GState :=
  let ball2 : Ball :=
    { x := WIDTH / 2, y := (maxBlockY + s.paddle.y) / 2,
      xVelocity := r0 % 10 + 6, yVelocity := r1 % 10 + 6,
      xDirection := if r2 % 2 = 0 then 1 else -1, yDirection := -1 }
  let paddle2 : Paddle :=
    { s.paddle with x := (WIDTH - s.paddle.len) / 2,
                    direction := 0, lastDirection := 0 }
  let b1 := clearPaddleRow s.board s.paddle.y 60
  let b2 := placePaddle b1 paddle2.x paddle2.y paddle2.len.toNat
  { s with ball := ball2, paddle := paddle2, board := b2 }

/-- A concrete end-of-life state of play(): the ball has just died at
(30,35) (its tile is still on the board there, as checkBall's
bottom-exit branch mutates nothing), the paddle spans columns 20..39 of
row 33, and the rest of the board is empty. -/
def deathState : GState :=
  { board := fun x y =>
      if x = 30 ∧ y = 35 then BALL
      else if y = 33 ∧ 20 ≤ x ∧ x < 40 then PADDLE
      else EMPTY,
    ball := ⟨30, 35, 7, 7, 1, 1⟩,
    paddle := ⟨20, 33, 20, 0, 0, 4⟩,
    blocksLeft := 5,
    score := 0 }

/-- A concrete level start used to instantiate the conservation
theorem: level 1 geometry with maxBlockY 12, the paddle on row 33 and
the ball at the centered start cell (30, 22). -/
def levelStartState : GState :=
  { board := (generateBoard 1 12 ⟨20, 33, 20, 0, 0, 4⟩ ⟨30, 22, 6, 6, 1, -1⟩
      (fun _ => 0)).1,
    ball := ⟨30, 22, 6, 6, 1, -1⟩,
    paddle := ⟨20, 33, 20, 0, 0, 4⟩,
    blocksLeft := (generateBoard 1 12 ⟨20, 33, 20, 0, 0, 4⟩
      ⟨30, 22, 6, 6, 1, -1⟩ (fun _ => 0)).2,
    score := 0 }

/-! ## Basic facts about the paddle loops -/

theorem movePaddleLeftLoop_fields (n : Nat) :
    ∀ p b, ((movePaddleLeftLoop n p b).1.x = p.x - n)
      ∧ ((movePaddleLeftLoop n p b).1.y = p.y)
      ∧ ((movePaddleLeftLoop n p b).1.len = p.len) := by
  induction n with
  | zero => intro p b; simp [movePaddleLeftLoop]
  | succ m ih =>
      intro p b
      simpa [movePaddleLeftLoop] using
        (by
          have h := ih { p with x := p.x - 1 }
            (setTile (setTile b (p.x - 1) p.y PADDLE) (p.x + p.len - 1) p.y EMPTY)
          constructor
          · rw [h.1]; push_cast; ring
          · exact ⟨h.2.1, h.2.2⟩)

theorem movePaddleRightLoop_fields (n : Nat) :
    ∀ p b, ((movePaddleRightLoop n p b).1.x = p.x + n)
      ∧ ((movePaddleRightLoop n p b).1.y = p.y)
      ∧ ((movePaddleRightLoop n p b).1.len = p.len) := by
  induction n with
  | zero => intro p b; simp [movePaddleRightLoop]
  | succ m ih =>
      intro p b
      simpa [movePaddleRightLoop] using
        (by
          have h := ih { p with x := p.x + 1 }
            (setTile (setTile b (p.x + p.len) p.y PADDLE) p.x p.y EMPTY)
          constructor
          · rw [h.1]; push_cast; ring
          · exact ⟨h.2.1, h.2.2⟩)

/-- One movePaddle call keeps the paddle span inside [0, WIDTH] and
never changes its length or row. -/
theorem movePaddle_step_inv (p : Paddle) (b : Board)
    (h0 : 0 ≤ p.x) (h1 : p.x + p.len ≤ WIDTH) :
    0 ≤ (movePaddle p b).1.x
      ∧ (movePaddle p b).1.x + (movePaddle p b).1.len ≤ WIDTH
      ∧ (movePaddle p b).1.y = p.y
      ∧ (movePaddle p b).1.len = p.len := by
  unfold movePaddle
  split_ifs with hl hr
  · obtain ⟨hx, hy, hlen⟩ := movePaddleLeftLoop_fields (-p.direction).toNat p b
    rw [hx, hy, hlen]
    have hd : ((-p.direction).toNat : Int) = -p.direction := by omega
    rw [hd]
    refine ⟨by omega, by omega, rfl, rfl⟩
  · obtain ⟨hx, hy, hlen⟩ := movePaddleRightLoop_fields p.direction.toNat p b
    rw [hx, hy, hlen]
    have hd : ((p.direction).toNat : Int) = p.direction := by omega
    rw [hd]
    refine ⟨by omega, by omega, rfl, rfl⟩
  · exact ⟨h0, h1, rfl, rfl⟩

/-! ## Claim C10: movePaddle with direction 0 is a no-op -/

/-- C10: calling movePaddle with direction equal to 0 changes nothing:
every field of the paddle and every cell of the board are left
unchanged. -/
theorem movePaddle_zero_direction (p : Paddle) (b : Board)
    (h : p.direction = 0) : movePaddle p b = (p, b) := by
  unfold movePaddle
  rw [h]
  norm_num

/-- Witness for C10 at a concrete paddle and board. -/
theorem movePaddle_zero_direction_witness :
    (⟨20, 33, 20, 0, 0, 4⟩ : Paddle).direction = 0
    ∧ movePaddle ⟨20, 33, 20, 0, 0, 4⟩ (fun _ _ => EMPTY)
        = (⟨20, 33, 20, 0, 0, 4⟩, fun _ _ => EMPTY) :=
  ⟨rfl, movePaddle_zero_direction ⟨20, 33, 20, 0, 0, 4⟩ (fun _ _ => EMPTY) rfl⟩

/-! ## Claim C2: the paddle stays inside [0, WIDTH - len] -/

/-- C2: for every paddle whose left edge lies in [0, WIDTH - len] and
every sequence of movePaddle invocations with any direction values, the
left edge stays in [0, WIDTH - len]; a move that would push the left
edge below column 0 or the right edge past the last column is rejected
and the paddle (and board) do not change on that call. -/
theorem movePaddle_bounds (p : Paddle) (b : Board) (ds : List Int)
    (h0 : 0 ≤ p.x) (h1 : p.x + p.len ≤ WIDTH) :
    (0 ≤ (runPaddleMoves p b ds).1.x
      ∧ (runPaddleMoves p b ds).1.x + (runPaddleMoves p b ds).1.len ≤ WIDTH)
    ∧ (∀ q c, q.direction < 0 → q.x + q.direction < 0 →
        movePaddle q c = (q, c))
    ∧ (∀ q c, 0 < q.direction → WIDTH < q.x + q.len + q.direction →
        movePaddle q c = (q, c)) := by
  refine ⟨?_, ?_, ?_⟩
  · induction ds generalizing p b with
    | nil => exact ⟨h0, h1⟩
    | cons d ds ih =>
        have hstep := movePaddle_step_inv { p with direction := d } b h0 h1
        simpa [runPaddleMoves] using
          ih (movePaddle { p with direction := d } b).1
            (movePaddle { p with direction := d } b).2 hstep.1 hstep.2.1
  · intro q c hneg hout
    unfold movePaddle
    split_ifs with hc1 hc2
    · omega
    · omega
    · rfl
  · intro q c hpos hout
    unfold movePaddle
    split_ifs with hc1 hc2
    · omega
    · omega
    · rfl

/-- Witness for C2 at a concrete paddle, board and direction
sequence. -/
theorem movePaddle_bounds_witness :
    0 ≤ (⟨20, 33, 20, 0, 0, 4⟩ : Paddle).x
    ∧ (⟨20, 33, 20, 0, 0, 4⟩ : Paddle).x + (⟨20, 33, 20, 0, 0, 4⟩ : Paddle).len ≤ WIDTH
    ∧ ((0 ≤ (runPaddleMoves ⟨20, 33, 20, 0, 0, 4⟩ (fun _ _ => EMPTY) [-1, -1, 1]).1.x
      ∧ (runPaddleMoves ⟨20, 33, 20, 0, 0, 4⟩ (fun _ _ => EMPTY) [-1, -1, 1]).1.x
          + (runPaddleMoves ⟨20, 33, 20, 0, 0, 4⟩ (fun _ _ => EMPTY) [-1, -1, 1]).1.len ≤ WIDTH)
    ∧ (∀ q c, q.direction < 0 → q.x + q.direction < 0 →
        movePaddle q c = (q, c))
    ∧ (∀ q c, 0 < q.direction → WIDTH < q.x + q.len + q.direction →
        movePaddle q c = (q, c))) :=
  ⟨by norm_num, by norm_num [WIDTH],
    movePaddle_bounds ⟨20, 33, 20, 0, 0, 4⟩ (fun _ _ => EMPTY) [-1, -1, 1]
      (by norm_num) (by norm_num [WIDTH])⟩

/-! ## Claim C8: the bonus-life schedule -/

/-- C8: the bonus lives added at level start follow the banded
schedule: levels 2-9 add 2; levels 10-19 add 1; even levels in 20-39
add 1; levels divisible by 4 in 40-59 add 1; all other levels
(including level 1 and levels at least 60) add none; in particular
level 15 adds 1 and level 7 adds 2. -/
theorem bonusLives_schedule (level : Int) :
    (2 ≤ level ∧ level ≤ 9 → bonusLives level = 2)
    ∧ (10 ≤ level ∧ level ≤ 19 → bonusLives level = 1)
    ∧ (20 ≤ level ∧ level ≤ 39 ∧ level % 2 = 0 → bonusLives level = 1)
    ∧ (40 ≤ level ∧ level ≤ 59 ∧ level % 4 = 0 → bonusLives level = 1)
    ∧ (¬(2 ≤ level ∧ level ≤ 9) ∧ ¬(10 ≤ level ∧ level ≤ 19)
        ∧ ¬(20 ≤ level ∧ level ≤ 39 ∧ level % 2 = 0)
        ∧ ¬(40 ≤ level ∧ level ≤ 59 ∧ level % 4 = 0)
        → bonusLives level = 0)
    ∧ bonusLives 15 = 1 ∧ bonusLives 7 = 2 := by
  refine ⟨?_, ?_, ?_, ?_, ?_, by decide, by decide⟩ <;>
    · intro h
      unfold bonusLives
      split_ifs <;> omega

/-- Witness for C8: one level from each band of the schedule. -/
theorem bonusLives_schedule_witness :
    bonusLives 7 = 2 ∧ bonusLives 15 = 1 ∧ bonusLives 28 = 1
    ∧ bonusLives 44 = 1 ∧ bonusLives 61 = 0 ∧ bonusLives 1 = 0 :=
  ⟨(bonusLives_schedule 7).1 (by norm_num),
   (bonusLives_schedule 15).2.1 (by norm_num),
   (bonusLives_schedule 28).2.2.1 (by norm_num),
   (bonusLives_schedule 44).2.2.2.1 (by norm_num),
   (bonusLives_schedule 61).2.2.2.2.1 (by norm_num),
   (bonusLives_schedule 1).2.2.2.2.1 (by norm_num)⟩

/-! ## Claim C3: a candidate below the field always signals life lost -/

/-- C3: for every ball state with y < HEIGHT and every frame, if the
candidate next position computed by checkBall has y at least HEIGHT
then checkBall returns the life-lost signal 0 and leaves the ball, the
board, the score and the remaining-block counter unchanged, regardless
of the candidate x. -/
theorem checkBall_bottom_exit (ball : Ball) (b : Board) (n : Int)
    (s : Nat) (frame : Nat) (r : Nat → Nat) (hy : ball.y < HEIGHT)
    (hc : HEIGHT ≤ nextYOf ball frame) :
    checkBall ball b n s frame r = ⟨0, ball, b, n, s⟩ := by
  unfold checkBall
  rw [if_neg (by omega), if_pos (by omega)]

/-- Witness for C3: a ball on the bottom row moving down. -/
theorem checkBall_bottom_exit_witness :
    (⟨30, 35, 5, 5, 1, 1⟩ : Ball).y < HEIGHT
    ∧ HEIGHT ≤ nextYOf ⟨30, 35, 5, 5, 1, 1⟩ 5
    ∧ checkBall ⟨30, 35, 5, 5, 1, 1⟩ (fun _ _ => EMPTY) 3 0 5 (fun _ => 0)
        = ⟨0, ⟨30, 35, 5, 5, 1, 1⟩, (fun _ _ => EMPTY), 3, 0⟩ :=
  ⟨by decide, by decide,
    checkBall_bottom_exit ⟨30, 35, 5, 5, 1, 1⟩ (fun _ _ => EMPTY) 3 0 5
      (fun _ => 0) (by decide) (by decide)⟩

/-! ## Claim C5: a ball in a top corner moving up and outward -/

/-- Counterexample to C5: a ball at (0,0) with both axes due, moving up
and left.  The candidate cell is (-1,-1), whose y is not 0, so the
side-wall branch fires before the corner branch: only the x direction
sign is inverted; the y direction sign is unchanged, refuting "inverts
both the x and y direction signs". -/
theorem checkBall_corner_claim_counterexample :
    (checkBall ⟨0, 0, 5, 5, -1, -1⟩ (fun _ _ => EMPTY) 1 0 5 (fun _ => 0)).ball.xDirection = 1
    ∧ (checkBall ⟨0, 0, 5, 5, -1, -1⟩ (fun _ _ => EMPTY) 1 0 5 (fun _ => 0)).ball.yDirection = -1
    ∧ (checkBall ⟨0, 0, 5, 5, -1, -1⟩ (fun _ _ => EMPTY) 1 0 5 (fun _ => 0)).ball.x = 0
    ∧ (checkBall ⟨0, 0, 5, 5, -1, -1⟩ (fun _ _ => EMPTY) 1 0 5 (fun _ => 0)).ball.y = 0 := by
  decide

/-- C5 as amended: a ball at (0,0) or (WIDTH-1,0) whose due move this
frame is diagonally into the corner (both axes due, moving up and
outward) takes the side-wall branch: only the x direction sign is
inverted, the y direction sign is unchanged, and the ball, board,
counter and score are otherwise unchanged (the ball does not move that
frame). -/
theorem checkBall_corner_sidewall (ball : Ball) (b : Board) (n : Int)
    (s : Nat) (frame : Nat) (r : Nat → Nat)
    (hy : ball.y = 0) (hyd : ball.yDirection < 0)
    (hx : (ball.x = 0 ∧ ball.xDirection < 0)
      ∨ (ball.x = WIDTH - 1 ∧ 0 < ball.xDirection))
    (hdx : frame % ball.xVelocity = 0) (hdy : frame % ball.yVelocity = 0) :
    checkBall ball b n s frame r
      = ⟨1, { ball with xDirection := -ball.xDirection }, b, n, s⟩ := by
  have hnx : nextXOf ball frame = ball.x + ball.xDirection := by
    unfold nextXOf; rw [if_pos hdx]
  have hny : nextYOf ball frame = ball.y + ball.yDirection := by
    unfold nextYOf; rw [if_pos hdy]
  have hH : HEIGHT = 36 := rfl
  have hW : WIDTH = 60 := rfl
  unfold checkBall
  rcases hx with ⟨hx0, hxd⟩ | ⟨hx0, hxd⟩ <;>
    rw [if_neg (by omega), if_neg (by omega), if_neg (by omega),
      if_neg (by omega), if_pos (by omega)]

/-- Witness for C5 (amended) at a ball in the left corner. -/
theorem checkBall_corner_sidewall_witness :
    checkBall ⟨0, 0, 5, 5, -1, -1⟩ (fun _ _ => EMPTY) 1 0 5 (fun _ => 0)
      = ⟨1, ⟨0, 0, 5, 5, 1, -1⟩, (fun _ _ => EMPTY), 1, 0⟩ := by
  have h := checkBall_corner_sidewall ⟨0, 0, 5, 5, -1, -1⟩
    (fun _ _ => EMPTY) 1 0 5 (fun _ => 0) rfl (by decide)
    (Or.inl ⟨rfl, by decide⟩) (by decide) (by decide)
  simpa using h

/-! ## Claim C6: the paddle-hit branch of checkBall -/

/-- Counterexample to C6: the candidate destination (0,33) is in bounds
and holds a Paddle tile, yet checkBall takes the side-wall branch
(candidate x ≤ 0) before the paddle branch: the y direction is not
inverted and the velocities are not redrawn (with the stream drawing 3,
a redraw would have set both velocities to 8). -/
theorem checkBall_paddle_claim_counterexample :
    (fun x y => if x = 0 ∧ y = 33 then PADDLE else EMPTY : Board) 0 33 = PADDLE
    ∧ nextXOf ⟨1, 33, 5, 7, -1, -1⟩ 5 = 0
    ∧ nextYOf ⟨1, 33, 5, 7, -1, -1⟩ 5 = 33
    ∧ (checkBall ⟨1, 33, 5, 7, -1, -1⟩
        (fun x y => if x = 0 ∧ y = 33 then PADDLE else EMPTY) 1 0 5
        (fun _ => 3)).ball.yDirection = -1
    ∧ (checkBall ⟨1, 33, 5, 7, -1, -1⟩
        (fun x y => if x = 0 ∧ y = 33 then PADDLE else EMPTY) 1 0 5
        (fun _ => 3)).ball.xVelocity = 5
    ∧ (checkBall ⟨1, 33, 5, 7, -1, -1⟩
        (fun x y => if x = 0 ∧ y = 33 then PADDLE else EMPTY) 1 0 5
        (fun _ => 3)).ball.yVelocity = 7
    ∧ (checkBall ⟨1, 33, 5, 7, -1, -1⟩
        (fun x y => if x = 0 ∧ y = 33 then PADDLE else EMPTY) 1 0 5
        (fun _ => 3)).ball.xDirection = 1 := by
  decide

/-- C6 as amended: when the candidate destination cell is in bounds
with candidate x at least 1 and candidate y at least 1 (so in
particular for destinations in boundary column WIDTH-1, but not in
column 0, whose Paddle tiles are taken by the side-wall branch) and
holds a Paddle tile, checkBall inverts the y direction, inverts the x
direction exactly when the fresh draw is even (an even draw has
probability 50% for a uniform source), and redraws the two velocities
as fresh draws reduced into [5,13). -/
theorem checkBall_paddle_bounce (ball : Ball) (b : Board) (n : Int)
    (s : Nat) (frame : Nat) (r : Nat → Nat)
    (hmove : ¬(nextXOf ball frame = ball.x ∧ nextYOf ball frame = ball.y))
    (hx1 : 1 ≤ nextXOf ball frame) (hx2 : nextXOf ball frame < WIDTH)
    (hy1 : 1 ≤ nextYOf ball frame) (hy2 : nextYOf ball frame < HEIGHT)
    (hp : b (nextXOf ball frame) (nextYOf ball frame) = PADDLE) :
    checkBall ball b n s frame r
      = ⟨1, { ball with
                yDirection := -ball.yDirection,
                xDirection := if r 0 % 2 = 0 then -ball.xDirection
                              else ball.xDirection,
                xVelocity := r 1 % 8 + 5,
                yVelocity := r 2 % 8 + 5 }, b, n, s⟩
    ∧ 5 ≤ r 1 % 8 + 5 ∧ r 1 % 8 + 5 < 13
    ∧ 5 ≤ r 2 % 8 + 5 ∧ r 2 % 8 + 5 < 13 := by
  have hH : HEIGHT = 36 := rfl
  have hW : WIDTH = 60 := rfl
  refine ⟨?_, by omega, by omega, by omega, by omega⟩
  unfold checkBall
  rw [if_neg hmove, if_neg (by omega),
    if_neg (by rw [hp]; simp),
    if_neg (by omega), if_neg (by omega), if_neg (by omega), if_pos hp]

/-- Witness for C6 (amended) at a paddle tile in an interior column. -/
theorem checkBall_paddle_bounce_witness :
    (fun x y => if 20 ≤ x ∧ x < 40 ∧ y = 33 then PADDLE else EMPTY : Board)
        (nextXOf ⟨29, 33, 5, 7, 1, -1⟩ 5) (nextYOf ⟨29, 33, 5, 7, 1, -1⟩ 5) = PADDLE
    ∧ checkBall ⟨29, 33, 5, 7, 1, -1⟩
        (fun x y => if 20 ≤ x ∧ x < 40 ∧ y = 33 then PADDLE else EMPTY) 2 0 5
        (fun _ => 3)
      = ⟨1, ⟨29, 33, 8, 8, 1, 1⟩,
          (fun x y => if 20 ≤ x ∧ x < 40 ∧ y = 33 then PADDLE else EMPTY), 2, 0⟩ := by
  have h := checkBall_paddle_bounce ⟨29, 33, 5, 7, 1, -1⟩
    (fun x y => if 20 ≤ x ∧ x < 40 ∧ y = 33 then PADDLE else EMPTY) 2 0 5
    (fun _ => 3) (by decide) (by decide) (by decide) (by decide) (by decide)
    (by decide)
  exact ⟨by decide, by simpa using h.1⟩

/-! ## Claim C1: destroyBlock -/

/-- Counterexample to C1: with the score at 4294967286 (an unsigned
int value the program can reach, one pair short of wrapping),
destroying the Red pair at (9,5)-(10,5) wraps the 32-bit score to 0
instead of increasing it by exactly 10. -/
theorem destroyBlock_score_wrap_counterexample :
    isBlock ((fun x y => if (x = 9 ∨ x = 10) ∧ y = 5 then RED_BLOCK else EMPTY : Board) 9 5) = true
    ∧ (destroyBlock 9 5
        (fun x y => if (x = 9 ∨ x = 10) ∧ y = 5 then RED_BLOCK else EMPTY)
        27 4294967286).2.2 = 0
    ∧ ¬((destroyBlock 9 5
        (fun x y => if (x = 9 ∨ x = 10) ∧ y = 5 then RED_BLOCK else EMPTY)
        27 4294967286).2.2 = 4294967286 + 10) := by
  decide

/-- C1 as amended: for every call to destroyBlock with struck cell
(x, y), x nonnegative: if x is odd the partner cell is (x+1, y), if x
is even the partner is (x-1, y); both cells become EMPTY and no other
cell changes; the remaining-block counter decreases by exactly 1 (not
2); and the score increases by exactly 10 modulo 2^32 (by exactly 10
whenever score + 10 < 2^32). -/
theorem destroyBlock_spec (x y : Int) (b : Board) (n : Int) (s : Nat)
    (hx : 0 ≤ x) :
    ((destroyBlock x y b n s).1 x y = EMPTY)
    ∧ (x % 2 = 1 → (destroyBlock x y b n s).1 (x + 1) y = EMPTY
        ∧ ∀ a c, ¬(a = x ∧ c = y) → ¬(a = x + 1 ∧ c = y) →
            (destroyBlock x y b n s).1 a c = b a c)
    ∧ (x % 2 = 0 → (destroyBlock x y b n s).1 (x - 1) y = EMPTY
        ∧ ∀ a c, ¬(a = x ∧ c = y) → ¬(a = x - 1 ∧ c = y) →
            (destroyBlock x y b n s).1 a c = b a c)
    ∧ (destroyBlock x y b n s).2.1 = n - 1
    ∧ (destroyBlock x y b n s).2.2 = (s + 10) % U32
    ∧ (s + 10 < U32 → (destroyBlock x y b n s).2.2 = s + 10) := by
  have ht : x.tmod 2 = x % 2 := Int.tmod_eq_emod hx (by norm_num)
  unfold destroyBlock
  rw [ht]
  refine ⟨?_, ?_, ?_, rfl, rfl, fun hlt => Nat.mod_eq_of_lt hlt⟩
  · by_cases hodd : x % 2 = 1
    · rw [if_pos hodd]
      show setTile (setTile b x y EMPTY) (x + 1) y EMPTY x y = EMPTY
      rw [setTile, if_neg (by omega), setTile, if_pos ⟨rfl, rfl⟩]
    · rw [if_neg hodd]
      show setTile (setTile b x y EMPTY) (x + -1) y EMPTY x y = EMPTY
      rw [setTile, if_neg (by omega), setTile, if_pos ⟨rfl, rfl⟩]
  · intro hodd
    rw [if_pos hodd]
    constructor
    · show setTile (setTile b x y EMPTY) (x + 1) y EMPTY (x + 1) y = EMPTY
      rw [setTile, if_pos ⟨rfl, rfl⟩]
    · intro a c h1 h2
      show setTile (setTile b x y EMPTY) (x + 1) y EMPTY a c = b a c
      rw [setTile, if_neg (by tauto), setTile, if_neg (by tauto)]
  · intro heven
    rw [if_neg (by omega)]
    constructor
    · show setTile (setTile b x y EMPTY) (x + -1) y EMPTY (x - 1) y = EMPTY
      rw [setTile, if_pos ⟨by ring, rfl⟩]
    · intro a c h1 h2
      show setTile (setTile b x y EMPTY) (x + -1) y EMPTY a c = b a c
      rw [setTile, if_neg (by rintro ⟨rfl, rfl⟩; exact h2 ⟨by ring, rfl⟩),
        setTile, if_neg (by tauto)]

/-- Witness for C1 (amended): the spec scenario, a Red pair at
(9,5)-(10,5) struck at (9,5). -/
theorem destroyBlock_spec_witness :
    (destroyBlock 9 5
      (fun x y => if (x = 9 ∨ x = 10) ∧ y = 5 then RED_BLOCK else EMPTY)
      27 100).1 9 5 = EMPTY
    ∧ (destroyBlock 9 5
      (fun x y => if (x = 9 ∨ x = 10) ∧ y = 5 then RED_BLOCK else EMPTY)
      27 100).1 10 5 = EMPTY
    ∧ (destroyBlock 9 5
      (fun x y => if (x = 9 ∨ x = 10) ∧ y = 5 then RED_BLOCK else EMPTY)
      27 100).2.1 = 26
    ∧ (destroyBlock 9 5
      (fun x y => if (x = 9 ∨ x = 10) ∧ y = 5 then RED_BLOCK else EMPTY)
      27 100).2.2 = 110 := by
  have h := destroyBlock_spec 9 5
    (fun x y => if (x = 9 ∨ x = 10) ∧ y = 5 then RED_BLOCK else EMPTY)
    27 100 (by norm_num)
  refine ⟨h.1, by simpa using (h.2.1 (by norm_num)).1,
    by simpa using h.2.2.2.1, by simpa using h.2.2.2.2.2 (by norm_num [U32])⟩

/-! ## Claim C9: the single-ball-tile invariant -/

/-- C9 fails on the code: the start-of-life reset does not clear the
stale BALL tile at the death position and does not paint a BALL tile at
the ball's new position, so the very next successful ball move leaves
two board cells holding BALL (the stale one at (30,35) and the moved
one at (31,21)). -/
theorem lifeReset_two_ball_tiles :
    (lifeReset deathState 12 0 0 0).ball.x = 30
    ∧ (lifeReset deathState 12 0 0 0).ball.y = 22
    ∧ (lifeReset deathState 12 0 0 0).board 30 22 = EMPTY
    ∧ (lifeReset deathState 12 0 0 0).board 30 35 = BALL
    ∧ (checkBall (lifeReset deathState 12 0 0 0).ball
        (lifeReset deathState 12 0 0 0).board
        (lifeReset deathState 12 0 0 0).blocksLeft
        (lifeReset deathState 12 0 0 0).score 6 (fun _ => 0)).board 30 35 = BALL
    ∧ (checkBall (lifeReset deathState 12 0 0 0).ball
        (lifeReset deathState 12 0 0 0).board
        (lifeReset deathState 12 0 0 0).blocksLeft
        (lifeReset deathState 12 0 0 0).score 6 (fun _ => 0)).board 31 21 = BALL
    ∧ ¬((30 : Int) = 31 ∧ (35 : Int) = 21) := by
  decide

/-! ## Loop lemmas for generateBoard -/

theorem setTile_same (b : Board) (x y : Int) (t : Tile) :
    setTile b x y t x y = t := by
  simp [setTile]

theorem setTile_ne (b : Board) (x y : Int) (t : Tile) (a c : Int)
    (h : ¬(a = x ∧ c = y)) : setTile b x y t a c = b a c := by
  simp [setTile, h]

theorem blockColor_isBlock (n : Nat) : isBlock (blockColor n) = true := by
  rcases n with _ | _ | n <;> rfl

/-- Closed form of the inner generateBoard loop: the block count and
the rand() index advance by the fuel, cells outside columns i, i+1 and
rows [j, j+fuel) are untouched, and each touched cell holds the color
of its own iteration's draw. -/
theorem genColumn_spec (r : Nat → Nat) (i : Int) :
    ∀ (fuel : Nat) (j : Int) (b : Board) (blocks : Int) (ridx : Nat),
      ((genColumn r i fuel j b blocks ridx).2.1 = blocks + (fuel : Int))
      ∧ ((genColumn r i fuel j b blocks ridx).2.2 = ridx + fuel)
      ∧ (∀ x y, ¬((x = i ∨ x = i + 1) ∧ j ≤ y ∧ y < j + (fuel : Int)) →
          (genColumn r i fuel j b blocks ridx).1 x y = b x y)
      ∧ (∀ x y, (x = i ∨ x = i + 1) → j ≤ y → y < j + (fuel : Int) →
          (genColumn r i fuel j b blocks ridx).1 x y
            = blockColor (r (ridx + (y - j).toNat) % 3)) := by
  intro fuel
  induction fuel with
  | zero =>
      intro j b blocks ridx
      refine ⟨by simp [genColumn], by simp [genColumn], ?_, ?_⟩
      · intro x y h
        rfl
      · intro x y hx h1 h2
        exact absurd h2 (by push_cast; omega)
  | succ m ih =>
      intro j b blocks ridx
      have hstep : genColumn r i (m + 1) j b blocks ridx
          = genColumn r i m (j + 1)
              (setTile (setTile b i j (blockColor (r ridx % 3))) (i + 1) j
                (blockColor (r ridx % 3)))
              (blocks + 1) (ridx + 1) := rfl
      obtain ⟨ihc, ihr, ihu, ihcell⟩ := ih (j + 1)
        (setTile (setTile b i j (blockColor (r ridx % 3))) (i + 1) j
          (blockColor (r ridx % 3))) (blocks + 1) (ridx + 1)
      rw [hstep]
      refine ⟨by rw [ihc]; push_cast; ring, by rw [ihr]; omega, ?_, ?_⟩
      · intro x y h
        rw [ihu x y (by push_cast at h ⊢; omega)]
        rw [setTile_ne _ _ _ _ _ _ (by push_cast at h ⊢; omega),
          setTile_ne _ _ _ _ _ _ (by push_cast at h ⊢; omega)]
      · intro x y hx h1 h2
        by_cases hy : y = j
        · subst hy
          rw [ihu x y (by push_cast; omega)]
          rcases hx with hx | hx <;> subst hx
          · rw [setTile_ne _ _ _ _ _ _ (by omega), setTile_same]
            simp
          · rw [setTile_same]
            simp
        · have hge : j + 1 ≤ y := by omega
          rw [ihcell x y hx hge (by push_cast at h2 ⊢; omega)]
          have harg : ridx + 1 + (y - (j + 1)).toNat = ridx + (y - j).toNat := by
            omega
          rw [harg]

/-- Closed form of the outer generateBoard loop, in terms of
m = (maxBlockY - 3).toNat rows per column pair: the block count
advances by fuel * m, columns outside [i, i + 2*fuel) and rows outside
[3, maxBlockY) are untouched, and pair a (columns i + 2a, i + 2a + 1)
at row y holds the color of draw ridx + a * m + (y - 3). -/
theorem genRows_spec (r : Nat → Nat) (mY : Int) :
    ∀ (fuel : Nat) (i : Int) (b : Board) (blocks : Int) (ridx : Nat),
      ((genRows r mY fuel i b blocks ridx).2.1
          = blocks + ((fuel * (mY - 3).toNat : Nat) : Int))
      ∧ ((genRows r mY fuel i b blocks ridx).2.2
          = ridx + fuel * (mY - 3).toNat)
      ∧ (∀ x y, ¬((i ≤ x ∧ x < i + 2 * (fuel : Int)) ∧ 3 ≤ y ∧ y < mY) →
          (genRows r mY fuel i b blocks ridx).1 x y = b x y)
      ∧ (∀ (a : Nat) (y : Int), a < fuel → 3 ≤ y → y < mY →
          (genRows r mY fuel i b blocks ridx).1 (i + 2 * a) y
              = blockColor (r (ridx + a * (mY - 3).toNat + (y - 3).toNat) % 3)
            ∧ (genRows r mY fuel i b blocks ridx).1 (i + 2 * a + 1) y
              = blockColor (r (ridx + a * (mY - 3).toNat + (y - 3).toNat) % 3)) := by
  intro fuel
  induction fuel with
  | zero =>
      intro i b blocks ridx
      refine ⟨by simp [genRows], by simp [genRows], fun x y h => rfl,
        fun a y ha h1 h2 => absurd ha (by omega)⟩
  | succ m ih =>
      intro i b blocks ridx
      obtain ⟨gc, gr, gu, gcell⟩ :=
        genColumn_spec r i (mY - 3).toNat 3 b blocks ridx
      have hstep : genRows r mY (m + 1) i b blocks ridx
          = genRows r mY m (i + 2)
              (genColumn r i (mY - 3).toNat 3 b blocks ridx).1
              (genColumn r i (mY - 3).toNat 3 b blocks ridx).2.1
              (genColumn r i (mY - 3).toNat 3 b blocks ridx).2.2 := rfl
      obtain ⟨ihc, ihr, ihu, ihcell⟩ := ih (i + 2)
        (genColumn r i (mY - 3).toNat 3 b blocks ridx).1
        (genColumn r i (mY - 3).toNat 3 b blocks ridx).2.1
        (genColumn r i (mY - 3).toNat 3 b blocks ridx).2.2
      rw [hstep]
      refine ⟨?_, ?_, ?_, ?_⟩
      · rw [ihc, gc]; push_cast; ring
      · rw [ihr, gr]; ring
      · intro x y h
        rw [ihu x y (by push_cast at h ⊢; omega)]
        exact gu x y (by push_cast at h ⊢; omega)
      · intro a y ha h1 h2
        rcases a with _ | a2
        · constructor
          · have hu := ihu (i + 2 * (0 : Nat)) y (by push_cast; omega)
            rw [hu]
            have hc := gcell (i + 2 * (0 : Nat)) y (by push_cast; omega)
              h1 (by push_cast; omega)
            rw [hc]
            have harg : ridx + (y - 3).toNat
                = ridx + 0 * (mY - 3).toNat + (y - 3).toNat := by ring_nf
            rw [← harg]
          · have hu := ihu (i + 2 * (0 : Nat) + 1) y (by push_cast; omega)
            rw [hu]
            have hc := gcell (i + 2 * (0 : Nat) + 1) y (by push_cast; omega)
              h1 (by push_cast; omega)
            rw [hc]
            have harg : ridx + (y - 3).toNat
                = ridx + 0 * (mY - 3).toNat + (y - 3).toNat := by ring_nf
            rw [← harg]
        · have hcell := ihcell a2 y (by omega) h1 h2
          constructor
          · have hpos : i + 2 * ((a2 + 1 : Nat) : Int)
                = i + 2 + 2 * (a2 : Int) := by push_cast; ring
            rw [hpos, hcell.1, gr]
            have harg : ridx + (mY - 3).toNat + a2 * (mY - 3).toNat
                + (y - 3).toNat
                = ridx + (a2 + 1) * (mY - 3).toNat + (y - 3).toNat := by ring
            rw [harg]
          · have hpos : i + 2 * ((a2 + 1 : Nat) : Int) + 1
                = i + 2 + 2 * (a2 : Int) + 1 := by push_cast; ring
            rw [hpos, hcell.2, gr]
            have harg : ridx + (mY - 3).toNat + a2 * (mY - 3).toNat
                + (y - 3).toNat
                = ridx + (a2 + 1) * (mY - 3).toNat + (y - 3).toNat := by ring
            rw [harg]

/-- Closed form of the paddle-creation loop of generateBoard. -/
theorem placePaddle_spec (px py : Int) :
    ∀ (n : Nat) (b : Board) (x y : Int),
      placePaddle b px py n x y
        = if px ≤ x ∧ x < px + (n : Int) ∧ y = py then PADDLE else b x y := by
  intro n
  induction n with
  | zero =>
      intro b x y
      rw [if_neg (by push_cast; omega)]
      rfl
  | succ m ih =>
      intro b x y
      show setTile (placePaddle b px py m) (px + (m : Int)) py PADDLE x y = _
      by_cases hc : x = px + (m : Int) ∧ y = py
      · rw [setTile, if_pos hc, if_pos (by push_cast; omega)]
      · rw [setTile, if_neg hc, ih]
        by_cases hin : px ≤ x ∧ x < px + (m : Int) ∧ y = py
        · rw [if_pos hin, if_pos (by push_cast at hin ⊢; omega)]
        · rw [if_neg hin, if_neg (by push_cast at hin hc ⊢; omega)]

/-- The board of generateBoard before the block field is filled in
(empty board, paddle span, ball cell) holds no block anywhere, and
holds BALL only at the ball's cell. -/
theorem generateBoard_base_facts (p : Paddle) (ball : Ball) :
    (∀ x y, isBlock
        ((setTile (placePaddle (fun _ _ => EMPTY) p.x p.y p.len.toNat)
          ball.x ball.y BALL) x y) = false)
    ∧ (∀ x y, (setTile (placePaddle (fun _ _ => EMPTY) p.x p.y p.len.toNat)
          ball.x ball.y BALL) x y = BALL → x = ball.x ∧ y = ball.y) := by
  constructor
  · intro x y
    rw [setTile]
    by_cases hb : x = ball.x ∧ y = ball.y
    · rw [if_pos hb]; rfl
    · rw [if_neg hb, placePaddle_spec]
      by_cases hp : p.x ≤ x ∧ x < p.x + (p.len.toNat : Int) ∧ y = p.y
      · rw [if_pos hp]; rfl
      · rw [if_neg hp]; rfl
  · intro x y h
    rw [setTile] at h
    by_cases hb : x = ball.x ∧ y = ball.y
    · exact hb
    · rw [if_neg hb, placePaddle_spec] at h
      by_cases hp : p.x ≤ x ∧ x < p.x + (p.len.toNat : Int) ∧ y = p.y
      · rw [if_pos hp] at h; exact absurd h (by simp)
      · rw [if_neg hp] at h; exact absurd h (by simp)

/-! ## Claim C7: generateBoard -/

/-- C7: for every level and maxBlockY > 3, generateBoard places one
same-color block pair (x, x+1) for every odd x from 3 up to WIDTH-3
(exclusive) and every row y from 3 up to maxBlockY (exclusive), the
pair's color being the image of that iteration's own fresh rand() draw
under the map 0 to Red, 1 to Blue, 2 to Green (a uniform draw for a
uniform source, independent per pair since every pair consumes a fresh
draw), and returns the count of block pairs it generated,
27 * (maxBlockY - 3). -/
theorem generateBoard_places_pairs (level mY : Int) (p : Paddle)
    (ball : Ball) (r : Nat → Nat) (hmY : 3 < mY) :
    ((generateBoard level mY p ball r).2 = 27 * (mY - 3))
    ∧ (∀ i j, 3 ≤ i → i < WIDTH - 3 → i % 2 = 1 → 3 ≤ j → j < mY →
        ((generateBoard level mY p ball r).1 i j
            = blockColor (r (((i - 3) / 2).toNat * (mY - 3).toNat
                + (j - 3).toNat) % 3)
          ∧ (generateBoard level mY p ball r).1 (i + 1) j
            = blockColor (r (((i - 3) / 2).toNat * (mY - 3).toNat
                + (j - 3).toNat) % 3)
          ∧ isBlock ((generateBoard level mY p ball r).1 i j) = true))
    ∧ blockColor 0 = RED_BLOCK ∧ blockColor 1 = BLUE_BLOCK
    ∧ blockColor 2 = GREEN_BLOCK
    ∧ (∀ k, isBlock (blockColor k) = true) := by
  have hW : WIDTH = 60 := rfl
  obtain ⟨gc, grx, gu, gcell⟩ := genRows_spec r mY 27 3
    (setTile (placePaddle (fun _ _ => EMPTY) p.x p.y p.len.toNat)
      ball.x ball.y BALL) 0 0
  have hgen : generateBoard level mY p ball r
      = ((genRows r mY 27 3
          (setTile (placePaddle (fun _ _ => EMPTY) p.x p.y p.len.toNat)
            ball.x ball.y BALL) 0 0).1,
        (genRows r mY 27 3
          (setTile (placePaddle (fun _ _ => EMPTY) p.x p.y p.len.toNat)
            ball.x ball.y BALL) 0 0).2.1) := rfl
  refine ⟨?_, ?_, rfl, rfl, rfl, blockColor_isBlock⟩
  · rw [hgen, gc]
    push_cast
    omega
  · intro i j hi3 hi57 hodd hj3 hjm
    have ha27 : ((i - 3) / 2).toNat < 27 := by omega
    have hi : i = 3 + 2 * ((((i - 3) / 2).toNat : Nat) : Int) := by omega
    obtain ⟨hc1, hc2⟩ := gcell ((i - 3) / 2).toNat j ha27 hj3 hjm
    have hz : 0 + ((i - 3) / 2).toNat * (mY - 3).toNat + (j - 3).toNat
        = ((i - 3) / 2).toNat * (mY - 3).toNat + (j - 3).toNat := by omega
    rw [hz] at hc1 hc2
    have hsimp : (((3 + 2 * ((((i - 3) / 2).toNat : Nat) : Int) - 3) / 2).toNat : Nat)
        = ((i - 3) / 2).toNat := by omega
    refine ⟨?_, ?_, ?_⟩
    · rw [hgen]
      show (genRows r mY 27 3 _ 0 0).1 i j = _
      rw [hi, hc1, hsimp]
    · rw [hgen]
      show (genRows r mY 27 3 _ 0 0).1 (i + 1) j = _
      rw [hi, hc2, hsimp]
    · rw [hgen]
      show isBlock ((genRows r mY 27 3 _ 0 0).1 i j) = true
      rw [hi, hc1]
      exact blockColor_isBlock _

/-- Witness for C7 at maxBlockY 4 and the constant stream drawing 1:
27 pairs, and the pair at (3,3)-(4,3) is Blue on both cells. -/
theorem generateBoard_places_pairs_witness :
    ((generateBoard 1 4 ⟨20, 33, 20, 0, 0, 4⟩ ⟨30, 22, 6, 6, 1, -1⟩
        (fun _ => 1)).2 = 27)
    ∧ (generateBoard 1 4 ⟨20, 33, 20, 0, 0, 4⟩ ⟨30, 22, 6, 6, 1, -1⟩
        (fun _ => 1)).1 3 3 = BLUE_BLOCK
    ∧ (generateBoard 1 4 ⟨20, 33, 20, 0, 0, 4⟩ ⟨30, 22, 6, 6, 1, -1⟩
        (fun _ => 1)).1 4 3 = BLUE_BLOCK := by
  have h := generateBoard_places_pairs 1 4 ⟨20, 33, 20, 0, 0, 4⟩
    ⟨30, 22, 6, 6, 1, -1⟩ (fun _ => 1) (by norm_num)
  obtain ⟨hcell1, hcell2, _⟩ := h.2.1 3 3 (by norm_num)
    (by norm_num [WIDTH]) (by norm_num) (by norm_num) (by norm_num)
  refine ⟨by simpa using h.1, ?_, ?_⟩
  · rw [hcell1]; decide
  · rw [show (3 : Int) + 1 = 4 by norm_num] at hcell2
    rw [hcell2]; decide

/-! ## Counting block tiles -/

theorem nblocks_congr (b1 b2 : Board)
    (h : ∀ x y, isBlock (b1 x y) = isBlock (b2 x y)) :
    nblocks b1 = nblocks b2 := by
  unfold nblocks
  congr 1
  apply Finset.filter_congr
  intro q hq
  rw [h q.1 q.2]

theorem nblocks_pos_of_block (b : Board) (x y : Int)
    (hx : 0 ≤ x ∧ x ≤ WIDTH - 1) (hy : 0 ≤ y ∧ y ≤ HEIGHT - 1)
    (hb : isBlock (b x y) = true) : 0 < nblocks b := by
  unfold nblocks
  apply Finset.card_pos.mpr
  refine ⟨(x, y), Finset.mem_filter.mpr ⟨?_, hb⟩⟩
  simp only [Finset.mem_product, Finset.mem_Icc]
  exact ⟨hx, hy⟩

theorem nblocks_erase (b : Board) (x y : Int) (t : Tile)
    (ht : isBlock t = false)
    (hx : 0 ≤ x ∧ x ≤ WIDTH - 1) (hy : 0 ≤ y ∧ y ≤ HEIGHT - 1)
    (hb : isBlock (b x y) = true) :
    nblocks (setTile b x y t) + 1 = nblocks b := by
  have hmem : (x, y) ∈ ((Finset.Icc (0 : Int) (WIDTH - 1)) ×ˢ
      (Finset.Icc (0 : Int) (HEIGHT - 1))).filter
      (fun q => isBlock (b q.1 q.2) = true) := by
    refine Finset.mem_filter.mpr ⟨?_, hb⟩
    simp only [Finset.mem_product, Finset.mem_Icc]
    exact ⟨hx, hy⟩
  have hset : ((Finset.Icc (0 : Int) (WIDTH - 1)) ×ˢ
      (Finset.Icc (0 : Int) (HEIGHT - 1))).filter
      (fun q => isBlock (setTile b x y t q.1 q.2) = true)
      = (((Finset.Icc (0 : Int) (WIDTH - 1)) ×ˢ
          (Finset.Icc (0 : Int) (HEIGHT - 1))).filter
        (fun q => isBlock (b q.1 q.2) = true)).erase (x, y) := by
    ext q
    simp only [Finset.mem_erase, Finset.mem_filter]
    constructor
    · rintro ⟨hq, hblk⟩
      have hne : ¬(q.1 = x ∧ q.2 = y) := by
        rintro ⟨h1, h2⟩
        rw [setTile, if_pos ⟨h1, h2⟩, ht] at hblk
        exact Bool.false_ne_true hblk
      refine ⟨?_, hq, ?_⟩
      · intro hqe
        exact hne ⟨by rw [hqe], by rw [hqe]⟩
      · rw [setTile_ne _ _ _ _ _ _ hne] at hblk
        exact hblk
    · rintro ⟨hne, hq, hblk⟩
      have hne2 : ¬(q.1 = x ∧ q.2 = y) := by
        rintro ⟨h1, h2⟩
        exact hne (Prod.ext h1 h2)
      exact ⟨hq, by rw [setTile_ne _ _ _ _ _ _ hne2]; exact hblk⟩
  unfold nblocks
  rw [hset, Finset.card_erase_of_mem hmem]
  have hpos : 0 < (((Finset.Icc (0 : Int) (WIDTH - 1)) ×ˢ
      (Finset.Icc (0 : Int) (HEIGHT - 1))).filter
      (fun q => isBlock (b q.1 q.2) = true)).card :=
    Finset.card_pos.mpr ⟨(x, y), hmem⟩
  omega

/-- Clearing both cells of a struck pair removes exactly two block
tiles from the count. -/
theorem nblocks_erase_pair (b : Board) (x1 y1 x2 y2 : Int)
    (hne : ¬(x2 = x1 ∧ y2 = y1))
    (h1 : (0 ≤ x1 ∧ x1 ≤ WIDTH - 1) ∧ (0 ≤ y1 ∧ y1 ≤ HEIGHT - 1))
    (h2 : (0 ≤ x2 ∧ x2 ≤ WIDTH - 1) ∧ (0 ≤ y2 ∧ y2 ≤ HEIGHT - 1))
    (hb1 : isBlock (b x1 y1) = true) (hb2 : isBlock (b x2 y2) = true) :
    nblocks (setTile (setTile b x1 y1 EMPTY) x2 y2 EMPTY) + 2 = nblocks b := by
  have hstill : isBlock ((setTile b x1 y1 EMPTY) x2 y2) = true := by
    rw [setTile_ne _ _ _ _ _ _ hne]
    exact hb2
  have e2 := nblocks_erase (setTile b x1 y1 EMPTY) x2 y2 EMPTY rfl
    h2.1 h2.2 hstill
  have e1 := nblocks_erase b x1 y1 EMPTY rfl h1.1 h1.2 hb1
  omega

/-! ## Board effects of the paddle loops -/

theorem movePaddleLeftLoop_board (n : Nat) :
    ∀ p b, (∀ x y, y ≠ p.y → (movePaddleLeftLoop n p b).2 x y = b x y)
      ∧ (∀ x y, (movePaddleLeftLoop n p b).2 x y = PADDLE
          ∨ (movePaddleLeftLoop n p b).2 x y = EMPTY
          ∨ (movePaddleLeftLoop n p b).2 x y = b x y) := by
  induction n with
  | zero =>
      intro p b
      exact ⟨fun x y hy => rfl, fun x y => Or.inr (Or.inr rfl)⟩
  | succ m ih =>
      intro p b
      obtain ⟨ih1, ih2⟩ := ih { p with x := p.x - 1 }
        (setTile (setTile b (p.x - 1) p.y PADDLE) (p.x + p.len - 1) p.y EMPTY)
      constructor
      · intro x y hy
        show (movePaddleLeftLoop m _ _).2 x y = b x y
        rw [ih1 x y hy, setTile_ne _ _ _ _ _ _ (by rintro ⟨_, h⟩; exact hy h),
          setTile_ne _ _ _ _ _ _ (by rintro ⟨_, h⟩; exact hy h)]
      · intro x y
        rcases ih2 x y with h | h | h
        · exact Or.inl h
        · exact Or.inr (Or.inl h)
        · show (movePaddleLeftLoop m _ _).2 x y = PADDLE
            ∨ (movePaddleLeftLoop m _ _).2 x y = EMPTY
            ∨ (movePaddleLeftLoop m _ _).2 x y = b x y
          rw [h, setTile]
          split_ifs with hc1
          · exact Or.inr (Or.inl rfl)
          · rw [setTile]
            split_ifs with hc2
            · exact Or.inl rfl
            · exact Or.inr (Or.inr rfl)

theorem movePaddleRightLoop_board (n : Nat) :
    ∀ p b, (∀ x y, y ≠ p.y → (movePaddleRightLoop n p b).2 x y = b x y)
      ∧ (∀ x y, (movePaddleRightLoop n p b).2 x y = PADDLE
          ∨ (movePaddleRightLoop n p b).2 x y = EMPTY
          ∨ (movePaddleRightLoop n p b).2 x y = b x y) := by
  induction n with
  | zero =>
      intro p b
      exact ⟨fun x y hy => rfl, fun x y => Or.inr (Or.inr rfl)⟩
  | succ m ih =>
      intro p b
      obtain ⟨ih1, ih2⟩ := ih { p with x := p.x + 1 }
        (setTile (setTile b (p.x + p.len) p.y PADDLE) p.x p.y EMPTY)
      constructor
      · intro x y hy
        show (movePaddleRightLoop m _ _).2 x y = b x y
        rw [ih1 x y hy, setTile_ne _ _ _ _ _ _ (by rintro ⟨_, h⟩; exact hy h),
          setTile_ne _ _ _ _ _ _ (by rintro ⟨_, h⟩; exact hy h)]
      · intro x y
        rcases ih2 x y with h | h | h
        · exact Or.inl h
        · exact Or.inr (Or.inl h)
        · show (movePaddleRightLoop m _ _).2 x y = PADDLE
            ∨ (movePaddleRightLoop m _ _).2 x y = EMPTY
            ∨ (movePaddleRightLoop m _ _).2 x y = b x y
          rw [h, setTile]
          split_ifs with hc1
          · exact Or.inr (Or.inl rfl)
          · rw [setTile]
            split_ifs with hc2
            · exact Or.inl rfl
            · exact Or.inr (Or.inr rfl)

/-- movePaddle changes the board only on the paddle's row, writes only
PADDLE or EMPTY there, and keeps the paddle's row. -/
theorem movePaddle_board (p : Paddle) (b : Board) :
    (∀ x y, y ≠ p.y → (movePaddle p b).2 x y = b x y)
    ∧ (∀ x y, (movePaddle p b).2 x y = PADDLE
        ∨ (movePaddle p b).2 x y = EMPTY
        ∨ (movePaddle p b).2 x y = b x y)
    ∧ (movePaddle p b).1.y = p.y := by
  unfold movePaddle
  split_ifs with hl hr
  · exact ⟨(movePaddleLeftLoop_board _ p b).1,
      (movePaddleLeftLoop_board _ p b).2,
      (movePaddleLeftLoop_fields _ p b).2.1⟩
  · exact ⟨(movePaddleRightLoop_board _ p b).1,
      (movePaddleRightLoop_board _ p b).2,
      (movePaddleRightLoop_fields _ p b).2.1⟩
  · exact ⟨fun x y hy => rfl, fun x y => Or.inr (Or.inr rfl), rfl⟩

/-- The conservation invariant is preserved by a paddle interaction of
the frame loop (setting any direction, then movePaddle), and the board
keeps its block count. -/
theorem ConsInv_movePaddle (mY : Int) (d : Int) (s : GState)
    (hInv : ConsInv mY s) :
    ConsInv mY { s with
        paddle := (movePaddle { s.paddle with direction := d } s.board).1,
        board := (movePaddle { s.paddle with direction := d } s.board).2 }
    ∧ nblocks (movePaddle { s.paddle with direction := d } s.board).2
        = nblocks s.board := by
  obtain ⟨hreg, hpair, hcount, hball, hbcell, hpy⟩ := hInv
  obtain ⟨hoff, hall, hy⟩ :=
    movePaddle_board { s.paddle with direction := d } s.board
  have hrow : ∀ x, isBlock (s.board x s.paddle.y) = false := by
    intro x
    cases hblk : isBlock (s.board x s.paddle.y) with
    | false => rfl
    | true =>
        obtain ⟨_, _, _, hlt⟩ := hreg x s.paddle.y hblk
        omega
  have hpt : ∀ x y,
      isBlock ((movePaddle { s.paddle with direction := d } s.board).2 x y)
        = isBlock (s.board x y) := by
    intro x y
    by_cases hyy : y = s.paddle.y
    · rcases hall x y with h | h | h
      · rw [h, hyy, hrow]; rfl
      · rw [h, hyy, hrow]; rfl
      · rw [h]
    · rw [hoff x y hyy]
  have hnb : nblocks (movePaddle { s.paddle with direction := d } s.board).2
      = nblocks s.board := nblocks_congr _ _ hpt
  refine ⟨⟨?_, ?_, ?_, ?_, ?_, ?_⟩, hnb⟩
  · intro x y hb
    rw [hpt] at hb
    exact hreg x y hb
  · intro x y hodd
    rw [hpt, hpt]
    exact hpair x y hodd
  · show 2 * s.blocksLeft = _
    rw [hnb]
    exact hcount
  · intro x y hb
    have hb2 : (movePaddle { s.paddle with direction := d } s.board).2 x y
        = BALL := hb
    show x = s.ball.x ∧ y = s.ball.y
    by_cases hyy : y = s.paddle.y
    · rcases hall x y with h | h | h
      · rw [h] at hb2; exact absurd hb2 (by simp)
      · rw [h] at hb2; exact absurd hb2 (by simp)
      · rw [h] at hb2; exact hball x y hb2
    · rw [hoff x y hyy] at hb2
      exact hball x y hb2
  · show isBlock ((movePaddle _ s.board).2 s.ball.x s.ball.y) = false
    rw [hpt]
    exact hbcell
  · show mY ≤ (movePaddle { s.paddle with direction := d } s.board).1.y
    rw [hy]
    exact hpy

/-! ## Preservation of the conservation invariant by checkBall -/

/-- Branches of checkBall that only change ball directions, velocities
or the score keep the invariant. -/
theorem ConsInv_same_board (mY : Int) (s : GState) (hInv : ConsInv mY s)
    (ball2 : Ball) (sc2 : Nat)
    (hx : ball2.x = s.ball.x) (hy : ball2.y = s.ball.y) :
    ConsInv mY { s with ball := ball2, score := sc2 } := by
  obtain ⟨hreg, hpair, hcount, hball, hbcell, hpy⟩ := hInv
  refine ⟨hreg, hpair, hcount, ?_, ?_, hpy⟩
  · intro x y hb
    obtain ⟨h1, h2⟩ := hball x y hb
    exact ⟨by rw [hx, h1], by rw [hy, h2]⟩
  · show isBlock (s.board ball2.x ball2.y) = false
    rw [hx, hy]
    exact hbcell

/-- The open-move branch of checkBall keeps the invariant and the
block count. -/
theorem ConsInv_moveBall (mY : Int) (s : GState) (hInv : ConsInv mY s)
    (nx ny : Int) (hemp : s.board nx ny = EMPTY) :
    ConsInv mY { s with
        ball := { s.ball with x := nx, y := ny },
        board := setTile (setTile s.board s.ball.x s.ball.y EMPTY) nx ny BALL }
    ∧ nblocks (setTile (setTile s.board s.ball.x s.ball.y EMPTY) nx ny BALL)
        = nblocks s.board := by
  obtain ⟨hreg, hpair, hcount, hball, hbcell, hpy⟩ := hInv
  have hval : ∀ x y,
      setTile (setTile s.board s.ball.x s.ball.y EMPTY) nx ny BALL x y
        = if x = nx ∧ y = ny then BALL
          else if x = s.ball.x ∧ y = s.ball.y then EMPTY
          else s.board x y := by
    intro x y
    by_cases hc1 : x = nx ∧ y = ny
    · rw [setTile, if_pos hc1, if_pos hc1]
    · rw [setTile, if_neg hc1, if_neg hc1, setTile]
  have hpt : ∀ x y,
      isBlock (setTile (setTile s.board s.ball.x s.ball.y EMPTY) nx ny BALL x y)
        = isBlock (s.board x y) := by
    intro x y
    rw [hval]
    by_cases hc1 : x = nx ∧ y = ny
    · rw [if_pos hc1, hc1.1, hc1.2, hemp]
      rfl
    · rw [if_neg hc1]
      by_cases hc2 : x = s.ball.x ∧ y = s.ball.y
      · rw [if_pos hc2, hc2.1, hc2.2, hbcell]
        rfl
      · rw [if_neg hc2]
  have hnb : nblocks (setTile (setTile s.board s.ball.x s.ball.y EMPTY) nx ny BALL)
      = nblocks s.board := nblocks_congr _ _ hpt
  refine ⟨⟨?_, ?_, ?_, ?_, ?_, hpy⟩, hnb⟩
  · intro x y hb
    have hb2 : isBlock
        (setTile (setTile s.board s.ball.x s.ball.y EMPTY) nx ny BALL x y)
        = true := hb
    rw [hpt] at hb2
    exact hreg x y hb2
  · intro x y hodd
    show isBlock (setTile (setTile s.board s.ball.x s.ball.y EMPTY) nx ny BALL x y)
        = isBlock (setTile (setTile s.board s.ball.x s.ball.y EMPTY) nx ny BALL (x + 1) y)
    rw [hpt, hpt]
    exact hpair x y hodd
  · show 2 * s.blocksLeft = _
    rw [hnb]
    exact hcount
  · intro x y hb
    have hb2 : setTile (setTile s.board s.ball.x s.ball.y EMPTY) nx ny BALL x y
        = BALL := hb
    rw [hval] at hb2
    show x = nx ∧ y = ny
    by_cases hc1 : x = nx ∧ y = ny
    · exact hc1
    · rw [if_neg hc1] at hb2
      by_cases hc2 : x = s.ball.x ∧ y = s.ball.y
      · rw [if_pos hc2] at hb2
        exact absurd hb2 (by simp)
      · rw [if_neg hc2] at hb2
        exact absurd (hball x y hb2) hc2
  · show isBlock (setTile (setTile s.board s.ball.x s.ball.y EMPTY) nx ny BALL nx ny) = false
    rw [hval, if_pos ⟨rfl, rfl⟩]
    rfl

/-- The block-destruction branch of checkBall keeps the invariant,
decrements the counter by one and removes exactly the two cells of one
pair from the block count. -/
theorem ConsInv_destroy (mY : Int) (s : GState) (hInv : ConsInv mY s)
    (nx ny : Int) (hnx1 : 0 < nx) (hnx2 : nx < WIDTH)
    (hny1 : 0 < ny) (hny2 : ny < HEIGHT)
    (hne : ¬(nx = s.ball.x ∧ ny = s.ball.y))
    (hnemp : s.board nx ny ≠ EMPTY) (hnpad : s.board nx ny ≠ PADDLE)
    (ball2 : Ball) (hx : ball2.x = s.ball.x) (hy : ball2.y = s.ball.y) :
    ConsInv mY { s with
        ball := ball2,
        board := (destroyBlock nx ny s.board s.blocksLeft s.score).1,
        blocksLeft := s.blocksLeft - 1,
        score := (destroyBlock nx ny s.board s.blocksLeft s.score).2.2 }
    ∧ nblocks (destroyBlock nx ny s.board s.blocksLeft s.score).1 + 2
        = nblocks s.board := by
  obtain ⟨hreg, hpair, hcount, hball, hbcell, hpy⟩ := hInv
  have hW : WIDTH = 60 := rfl
  have hH : HEIGHT = 36 := rfl
  have hblk : isBlock (s.board nx ny) = true := by
    cases hcell : s.board nx ny with
    | EMPTY => exact absurd hcell hnemp
    | PADDLE => exact absurd hcell hnpad
    | BALL => exact absurd (hball nx ny hcell) hne
    | RED_BLOCK => rfl
    | BLUE_BLOCK => rfl
    | GREEN_BLOCK => rfl
  obtain ⟨hr1, hr2, hr3, hr4⟩ := hreg nx ny hblk
  have htm : nx.tmod 2 = nx % 2 := Int.tmod_eq_emod (by omega) (by norm_num)
  have hoffval : (destroyBlock nx ny s.board s.blocksLeft s.score).1
      = setTile (setTile s.board nx ny EMPTY)
          (nx + (if nx % 2 = 1 then 1 else -1)) ny EMPTY := by
    unfold destroyBlock
    rw [htm]
  have hpartner :
      isBlock (s.board (nx + (if nx % 2 = 1 then 1 else -1)) ny) = true := by
    by_cases hodd : nx % 2 = 1
    · rw [if_pos hodd, ← hpair nx ny hodd]
      exact hblk
    · rw [if_neg hodd]
      have hodd2 : (nx + -1) % 2 = 1 := by omega
      have hp2 := hpair (nx + -1) ny hodd2
      rw [show nx + -1 + 1 = nx by ring] at hp2
      rw [hp2]
      exact hblk
  have hval : ∀ x y,
      (destroyBlock nx ny s.board s.blocksLeft s.score).1 x y
        = if x = nx + (if nx % 2 = 1 then 1 else -1) ∧ y = ny then EMPTY
          else if x = nx ∧ y = ny then EMPTY
          else s.board x y := by
    intro x y
    rw [hoffval]
    by_cases hc1 : x = nx + (if nx % 2 = 1 then 1 else -1) ∧ y = ny
    · rw [setTile, if_pos hc1, if_pos hc1]
    · rw [setTile, if_neg hc1, if_neg hc1, setTile]
  have hoffne : ¬(nx + (if nx % 2 = 1 then 1 else -1) = nx ∧ ny = ny) := by
    rintro ⟨hc, _⟩
    split_ifs at hc <;> omega
  have hnb : nblocks (destroyBlock nx ny s.board s.blocksLeft s.score).1 + 2
      = nblocks s.board := by
    rw [hoffval]
    apply nblocks_erase_pair s.board nx ny _ ny hoffne
    · constructor <;> constructor <;> omega
    · refine ⟨⟨by split_ifs <;> omega, by split_ifs <;> omega⟩,
        by omega, by omega⟩
    · exact hblk
    · exact hpartner
  refine ⟨⟨?_, ?_, ?_, ?_, ?_, hpy⟩, hnb⟩
  · intro x y hb
    have hb2 : isBlock ((destroyBlock nx ny s.board s.blocksLeft s.score).1 x y)
        = true := hb
    show 3 ≤ x ∧ x ≤ 56 ∧ 3 ≤ y ∧ y < mY
    rw [hval] at hb2
    by_cases hc1 : x = nx + (if nx % 2 = 1 then 1 else -1) ∧ y = ny
    · rw [if_pos hc1] at hb2
      exact absurd hb2 (by simp [isBlock])
    · rw [if_neg hc1] at hb2
      by_cases hc2 : x = nx ∧ y = ny
      · rw [if_pos hc2] at hb2
        exact absurd hb2 (by simp [isBlock])
      · rw [if_neg hc2] at hb2
        exact hreg x y hb2
  · intro x y hodd
    show isBlock ((destroyBlock nx ny s.board s.blocksLeft s.score).1 x y)
        = isBlock ((destroyBlock nx ny s.board s.blocksLeft s.score).1 (x + 1) y)
    rw [hval, hval]
    by_cases hyy : y = ny
    · by_cases hodd2 : nx % 2 = 1
      · rw [if_pos hodd2]
        by_cases hxx : x = nx
        · rw [if_neg (by rintro ⟨h, _⟩; omega), if_pos ⟨hxx, hyy⟩,
            if_pos ⟨by omega, hyy⟩]
        · rw [if_neg (by rintro ⟨h, _⟩; omega),
            if_neg (by rintro ⟨h, _⟩; exact hxx h),
            if_neg (by rintro ⟨h, _⟩; exact hxx (by omega)),
            if_neg (by rintro ⟨h, _⟩; omega)]
          exact hpair x y hodd
      · have heven : nx % 2 = 0 := by omega
        rw [if_neg hodd2]
        by_cases hxx : x = nx + -1
        · rw [if_pos ⟨hxx, hyy⟩, if_neg (by rintro ⟨h, _⟩; omega),
            if_pos ⟨by omega, hyy⟩]
        · rw [if_neg (by rintro ⟨h, _⟩; exact hxx h),
            if_neg (by rintro ⟨h, _⟩; omega),
            if_neg (by rintro ⟨h, _⟩; omega),
            if_neg (by rintro ⟨h, _⟩; exact hxx (by omega))]
          exact hpair x y hodd
    · rw [if_neg (by rintro ⟨_, h⟩; exact hyy h),
        if_neg (by rintro ⟨_, h⟩; exact hyy h),
        if_neg (by rintro ⟨_, h⟩; exact hyy h),
        if_neg (by rintro ⟨_, h⟩; exact hyy h)]
      exact hpair x y hodd
  · show 2 * (s.blocksLeft - 1)
        = (nblocks (destroyBlock nx ny s.board s.blocksLeft s.score).1 : Int)
    omega
  · intro x y hb
    have hb2 : (destroyBlock nx ny s.board s.blocksLeft s.score).1 x y
        = BALL := hb
    show x = ball2.x ∧ y = ball2.y
    rw [hval] at hb2
    by_cases hc1 : x = nx + (if nx % 2 = 1 then 1 else -1) ∧ y = ny
    · rw [if_pos hc1] at hb2
      exact absurd hb2 (by simp)
    · rw [if_neg hc1] at hb2
      by_cases hc2 : x = nx ∧ y = ny
      · rw [if_pos hc2] at hb2
        exact absurd hb2 (by simp)
      · rw [if_neg hc2] at hb2
        obtain ⟨h1, h2⟩ := hball x y hb2
        exact ⟨by rw [hx, h1], by rw [hy, h2]⟩
  · show isBlock ((destroyBlock nx ny s.board s.blocksLeft s.score).1 ball2.x ball2.y) = false
    rw [hval]
    by_cases hc1 : ball2.x = nx + (if nx % 2 = 1 then 1 else -1) ∧ ball2.y = ny
    · rw [if_pos hc1]; rfl
    · rw [if_neg hc1]
      by_cases hc2 : ball2.x = nx ∧ ball2.y = ny
      · rw [if_pos hc2]; rfl
      · rw [if_neg hc2, hx, hy]
        exact hbcell

/-- The conservation invariant is preserved by a ball interaction of
the frame loop, and each call either leaves the counter and the block
tiles unchanged or decrements the counter by exactly 1 while removing
exactly one pair (two block tiles). -/
theorem ConsInv_checkBall (mY : Int) (s : GState) (frame : Nat)
    (r : Nat → Nat) (hInv : ConsInv mY s) :
    ConsInv mY { s with
        ball := (checkBall s.ball s.board s.blocksLeft s.score frame r).ball,
        board := (checkBall s.ball s.board s.blocksLeft s.score frame r).board,
        blocksLeft :=
          (checkBall s.ball s.board s.blocksLeft s.score frame r).blocksLeft,
        score := (checkBall s.ball s.board s.blocksLeft s.score frame r).score }
    ∧ (((checkBall s.ball s.board s.blocksLeft s.score frame r).blocksLeft
          = s.blocksLeft
        ∧ nblocks (checkBall s.ball s.board s.blocksLeft s.score frame r).board
          = nblocks s.board)
      ∨ ((checkBall s.ball s.board s.blocksLeft s.score frame r).blocksLeft
          = s.blocksLeft - 1
        ∧ nblocks (checkBall s.ball s.board s.blocksLeft s.score frame r).board
            + 2 = nblocks s.board)) := by
  have hH : HEIGHT = 36 := rfl
  have hW : WIDTH = 60 := rfl
  unfold checkBall
  by_cases h1 : nextXOf s.ball frame = s.ball.x ∧ nextYOf s.ball frame = s.ball.y
  · rw [if_pos h1]
    exact ⟨ConsInv_same_board mY s hInv _ _ rfl rfl, Or.inl ⟨rfl, rfl⟩⟩
  rw [if_neg h1]
  by_cases h2 : nextYOf s.ball frame ≥ HEIGHT
  · rw [if_pos h2]
    exact ⟨ConsInv_same_board mY s hInv _ _ rfl rfl, Or.inl ⟨rfl, rfl⟩⟩
  rw [if_neg h2]
  by_cases h3 : nextXOf s.ball frame ≥ 0 ∧ nextXOf s.ball frame < WIDTH
      ∧ nextYOf s.ball frame ≥ 0
      ∧ s.board (nextXOf s.ball frame) (nextYOf s.ball frame) = EMPTY
  · rw [if_pos h3]
    have hmb := ConsInv_moveBall mY s hInv (nextXOf s.ball frame)
      (nextYOf s.ball frame) h3.2.2.2
    exact ⟨hmb.1, Or.inl ⟨rfl, hmb.2⟩⟩
  rw [if_neg h3]
  by_cases h4 : nextYOf s.ball frame = 0
      ∧ (nextXOf s.ball frame = 0 ∨ nextXOf s.ball frame = WIDTH - 1)
  · rw [if_pos h4]
    exact ⟨ConsInv_same_board mY s hInv _ _ rfl rfl, Or.inl ⟨rfl, rfl⟩⟩
  rw [if_neg h4]
  by_cases h5 : nextXOf s.ball frame ≤ 0 ∨ nextXOf s.ball frame ≥ WIDTH
  · rw [if_pos h5]
    exact ⟨ConsInv_same_board mY s hInv _ _ rfl rfl, Or.inl ⟨rfl, rfl⟩⟩
  rw [if_neg h5]
  by_cases h6 : nextYOf s.ball frame ≤ 0
  · rw [if_pos h6]
    exact ⟨ConsInv_same_board mY s hInv _ _ rfl rfl, Or.inl ⟨rfl, rfl⟩⟩
  rw [if_neg h6]
  by_cases h7 : s.board (nextXOf s.ball frame) (nextYOf s.ball frame) = PADDLE
  · rw [if_pos h7]
    exact ⟨ConsInv_same_board mY s hInv _ _ rfl rfl, Or.inl ⟨rfl, rfl⟩⟩
  rw [if_neg h7]
  have hd := ConsInv_destroy mY s hInv (nextXOf s.ball frame)
    (nextYOf s.ball frame) (by omega) (by omega) (by omega) (by omega) h1
    (fun he => h3 ⟨by omega, by omega, by omega, he⟩) h7
    { s.ball with
        xDirection := if r 0 % 2 = 0 then -s.ball.xDirection
                      else s.ball.xDirection,
        yDirection := if r 1 % 2 = 0 then -s.ball.yDirection
                      else s.ball.yDirection } rfl rfl
  exact ⟨hd.1, Or.inr ⟨rfl, hd.2⟩⟩

/-! ## The invariant at the start of a level -/

theorem blockColor_ne_ball (n : Nat) : ¬(blockColor n = BALL) := by
  rcases n with _ | _ | k <;> simp [blockColor]

/-- A freshly generated board together with the returned block count
satisfies the conservation invariant, for any level geometry in which
the ball and the paddle row sit below the block field. -/
theorem ConsInv_generateBoard (level mY : Int) (p : Paddle) (ball : Ball)
    (r : Nat → Nat) (sc : Nat) (h3 : 3 < mY) (h36 : mY ≤ HEIGHT)
    (hb : mY ≤ ball.y) (hp : mY ≤ p.y) :
    ConsInv mY { board := (generateBoard level mY p ball r).1,
                 ball := ball, paddle := p,
                 blocksLeft := (generateBoard level mY p ball r).2,
                 score := sc } := by
  have hH : HEIGHT = 36 := rfl
  have hW : WIDTH = 60 := rfl
  obtain ⟨gc, grx, gu, gcell⟩ := genRows_spec r mY 27 3
    (setTile (placePaddle (fun _ _ => EMPTY) p.x p.y p.len.toNat)
      ball.x ball.y BALL) 0 0
  obtain ⟨hnbase, hbbase⟩ := generateBoard_base_facts p ball
  have hcellval : ∀ x y, 3 ≤ x → x < 57 → 3 ≤ y → y < mY →
      ∃ c, (generateBoard level mY p ball r).1 x y = blockColor c := by
    intro x y hx1 hx2 hy1 hy2
    by_cases hodd : x % 2 = 1
    · have ha : ((x - 3) / 2).toNat < 27 := by omega
      have hxa : x = 3 + 2 * ((((x - 3) / 2).toNat : Nat) : Int) := by omega
      obtain ⟨hc1, _⟩ := gcell ((x - 3) / 2).toNat y ha hy1 hy2
      refine ⟨r (0 + ((x - 3) / 2).toNat * (mY - 3).toNat + (y - 3).toNat) % 3, ?_⟩
      show (genRows r mY 27 3 _ 0 0).1 x y = _
      have hsimp : (((3 + 2 * ((((x - 3) / 2).toNat : Nat) : Int) - 3) / 2).toNat : Nat)
          = ((x - 3) / 2).toNat := by omega
      rw [hxa, hc1, hsimp]
    · have ha : ((x - 4) / 2).toNat < 27 := by omega
      have hxa : x = 3 + 2 * ((((x - 4) / 2).toNat : Nat) : Int) + 1 := by omega
      obtain ⟨_, hc2⟩ := gcell ((x - 4) / 2).toNat y ha hy1 hy2
      refine ⟨r (0 + ((x - 4) / 2).toNat * (mY - 3).toNat + (y - 3).toNat) % 3, ?_⟩
      show (genRows r mY 27 3 _ 0 0).1 x y = _
      have hsimp : (((3 + 2 * ((((x - 4) / 2).toNat : Nat) : Int) + 1 - 4) / 2).toNat : Nat)
          = ((x - 4) / 2).toNat := by omega
      rw [hxa, hc2, hsimp]
  have huntouched : ∀ x y,
      ¬((3 ≤ x ∧ x < 3 + 2 * ((27 : Nat) : Int)) ∧ 3 ≤ y ∧ y < mY) →
      (generateBoard level mY p ball r).1 x y
        = setTile (placePaddle (fun _ _ => EMPTY) p.x p.y p.len.toNat)
            ball.x ball.y BALL x y := by
    intro x y hout
    show (genRows r mY 27 3 _ 0 0).1 x y = _
    exact gu x y hout
  refine ⟨?_, ?_, ?_, ?_, ?_, hp⟩
  · -- region
    intro x y hblk
    have hblk2 : isBlock ((generateBoard level mY p ball r).1 x y) = true := hblk
    show 3 ≤ x ∧ x ≤ 56 ∧ 3 ≤ y ∧ y < mY
    by_cases hin : (3 ≤ x ∧ x < 3 + 2 * ((27 : Nat) : Int)) ∧ 3 ≤ y ∧ y < mY
    · refine ⟨hin.1.1, by push_cast at hin; omega, hin.2.1, hin.2.2⟩
    · rw [huntouched x y hin, hnbase x y] at hblk2
      exact absurd hblk2 (by simp)
  · -- aligned pairs
    intro x y hodd
    have hgoal : isBlock ((generateBoard level mY p ball r).1 x y)
        = isBlock ((generateBoard level mY p ball r).1 (x + 1) y) := by
      by_cases hy : 3 ≤ y ∧ y < mY
      · by_cases hx : 3 ≤ x ∧ x < 57
        · have ha : ((x - 3) / 2).toNat < 27 := by omega
          have hxa : x = 3 + 2 * ((((x - 3) / 2).toNat : Nat) : Int) := by omega
          obtain ⟨hc1, hc2⟩ := gcell ((x - 3) / 2).toNat y ha hy.1 hy.2
          show isBlock ((genRows r mY 27 3 _ 0 0).1 x y)
              = isBlock ((genRows r mY 27 3 _ 0 0).1 (x + 1) y)
          rw [hxa, hc1, hc2]
        · rw [huntouched x y (by push_cast; omega),
            huntouched (x + 1) y (by push_cast; omega),
            hnbase x y, hnbase (x + 1) y]
      · rw [huntouched x y (by push_cast; omega),
          huntouched (x + 1) y (by push_cast; omega),
          hnbase x y, hnbase (x + 1) y]
    exact hgoal
  · -- counter counts the pairs
    show 2 * (generateBoard level mY p ball r).2
        = ((nblocks (generateBoard level mY p ball r).1 : Nat) : Int)
    have hcnt : (generateBoard level mY p ball r).2
        = 0 + ((27 * (mY - 3).toNat : Nat) : Int) := gc
    have hfilter : ((Finset.Icc (0 : Int) (WIDTH - 1)) ×ˢ
        (Finset.Icc (0 : Int) (HEIGHT - 1))).filter
        (fun q => isBlock ((generateBoard level mY p ball r).1 q.1 q.2) = true)
        = (Finset.Icc (3 : Int) 56) ×ˢ (Finset.Icc (3 : Int) (mY - 1)) := by
      ext q
      simp only [Finset.mem_filter, Finset.mem_product, Finset.mem_Icc]
      constructor
      · rintro ⟨⟨hq1, hq2⟩, hblk⟩
        by_cases hin : (3 ≤ q.1 ∧ q.1 < 3 + 2 * ((27 : Nat) : Int))
            ∧ 3 ≤ q.2 ∧ q.2 < mY
        · refine ⟨⟨hin.1.1, by push_cast at hin; omega⟩, hin.2.1, by omega⟩
        · rw [huntouched q.1 q.2 hin, hnbase q.1 q.2] at hblk
          exact absurd hblk (by simp)
      · rintro ⟨⟨hq1, hq2⟩, hq3, hq4⟩
        obtain ⟨c, hc⟩ := hcellval q.1 q.2 hq1 (by omega) hq3 (by omega)
        refine ⟨⟨⟨by omega, by omega⟩, by omega, by omega⟩, ?_⟩
        rw [hc]
        exact blockColor_isBlock c
    have hcard : nblocks (generateBoard level mY p ball r).1
        = 54 * (mY - 3).toNat := by
      unfold nblocks
      rw [hfilter, Finset.card_product, Int.card_Icc, Int.card_Icc]
      have e1 : ((56 : Int) + 1 - 3).toNat = 54 := by decide
      have e2 : (mY - 1 + 1 - 3).toNat = (mY - 3).toNat := by omega
      rw [e1, e2]
    rw [hcnt, hcard]
    push_cast
    ring
  · -- BALL tiles only at the ball's cell
    intro x y hball
    have hball2 : (generateBoard level mY p ball r).1 x y = BALL := hball
    show x = ball.x ∧ y = ball.y
    by_cases hin : (3 ≤ x ∧ x < 3 + 2 * ((27 : Nat) : Int)) ∧ 3 ≤ y ∧ y < mY
    · obtain ⟨c, hc⟩ := hcellval x y hin.1.1 (by push_cast at hin; omega)
        hin.2.1 hin.2.2
      rw [hc] at hball2
      exact absurd hball2 (blockColor_ne_ball c)
    · rw [huntouched x y hin] at hball2
      exact hbbase x y hball2
  · -- the ball's own cell holds no block
    show isBlock ((generateBoard level mY p ball r).1 ball.x ball.y) = false
    rw [huntouched ball.x ball.y (by push_cast; omega), hnbase]

/-! ## Claim C4: conservation of the remaining-block counter -/

/-- Every frame-loop step preserves the conservation invariant. -/
theorem ConsInv_step (mY : Int) (a b : GState) (ha : ConsInv mY a)
    (hs : FrameStep a b) : ConsInv mY b := by
  cases hs with
  | paddle d => exact (ConsInv_movePaddle mY d a ha).1
  | ball frame r => exact (ConsInv_checkBall mY a frame r ha).1

/-- C4: starting from a board produced by generateBoard with the
counter initialized to its return value (for any level whose block
field ends above the ball and the paddle row, as in play()), every
state reachable by the frame loop has: counter 0 exactly when no block
tile remains anywhere on the board; and every further frame-loop step
either leaves the counter and the block tiles unchanged or performs one
destroy event, decrementing the counter by exactly 1 (not 2) and
clearing exactly one pair of block tiles. -/
theorem conservation_invariant (level mY : Int) (p : Paddle) (ball : Ball)
    (r : Nat → Nat) (sc : Nat) (h3 : 3 < mY) (h36 : mY ≤ HEIGHT)
    (hb : mY ≤ ball.y) (hp : mY ≤ p.y) :
    ∀ t, Reachable
        { board := (generateBoard level mY p ball r).1, ball := ball,
          paddle := p, blocksLeft := (generateBoard level mY p ball r).2,
          score := sc } t →
      ((t.blocksLeft = 0 ↔ ∀ x y, isBlock (t.board x y) = false)
        ∧ ∀ u, FrameStep t u →
            ((u.blocksLeft = t.blocksLeft ∧ nblocks u.board = nblocks t.board)
              ∨ (u.blocksLeft = t.blocksLeft - 1
                  ∧ nblocks u.board + 2 = nblocks t.board))) := by
  have hH : HEIGHT = 36 := rfl
  have hW : WIDTH = 60 := rfl
  have hinv : ∀ t, Reachable
      { board := (generateBoard level mY p ball r).1, ball := ball,
        paddle := p, blocksLeft := (generateBoard level mY p ball r).2,
        score := sc } t → ConsInv mY t := by
    intro t ht
    induction ht with
    | refl => exact ConsInv_generateBoard level mY p ball r sc h3 h36 hb hp
    | tail hab hbc ih => exact ConsInv_step mY _ _ ih hbc
  intro t ht
  have hI := hinv t ht
  obtain ⟨hreg, hpair, hcount, hball, hbcell, hpy⟩ := hI
  constructor
  · constructor
    · intro h0 x y
      cases hblk : isBlock (t.board x y) with
      | false => rfl
      | true =>
          exfalso
          obtain ⟨k1, k2, k3, k4⟩ := hreg x y hblk
          have hpos := nblocks_pos_of_block t.board x y
            ⟨by omega, by omega⟩ ⟨by omega, by omega⟩ hblk
          omega
    · intro hall
      have hzero : nblocks t.board = 0 := by
        unfold nblocks
        rw [Finset.card_eq_zero, Finset.filter_eq_empty_iff]
        intro q hq
        rw [hall q.1 q.2]
        simp
      omega
  · intro u hu
    cases hu with
    | paddle d =>
        exact Or.inl ⟨rfl,
          (ConsInv_movePaddle mY d t
            ⟨hreg, hpair, hcount, hball, hbcell, hpy⟩).2⟩
    | ball frame rr =>
        exact (ConsInv_checkBall mY t frame rr
          ⟨hreg, hpair, hcount, hball, hbcell, hpy⟩).2

/-- Witness for C4 at the concrete level start levelStartState. -/
theorem conservation_invariant_witness :
    (levelStartState.blocksLeft = 0
      ↔ ∀ x y, isBlock (levelStartState.board x y) = false)
    ∧ ∀ u, FrameStep levelStartState u →
        ((u.blocksLeft = levelStartState.blocksLeft
            ∧ nblocks u.board = nblocks levelStartState.board)
          ∨ (u.blocksLeft = levelStartState.blocksLeft - 1
            ∧ nblocks u.board + 2 = nblocks levelStartState.board)) :=
  conservation_invariant 1 12 ⟨20, 33, 20, 0, 0, 4⟩ ⟨30, 22, 6, 6, 1, -1⟩
    (fun _ => 0) 0 (by decide) (by decide) (by decide) (by decide)
    levelStartState Relation.ReflTransGen.refl
